import Mathlib

/-!
Verification of the real-time audio conversation pipeline of the
`AudioConverseStudio` component (`src/App.tsx`) and its audio wire helpers
(`src/utils/fileUtils.ts`).

The embedding models:
* the base64 wire helpers `encode` / `decode` (which wrap the browser's
  `btoa` / `atob` on byte sequences);
* the capture path (`onaudioprocess` handler): float sample → `Int16Array`
  conversion, little-endian serialization, frame construction and the
  unconditional `sessionPromise.then(send)` call;
* the playback / transcript path (`onmessage` handler): transcript
  accumulation, turn finalization, base64 decode, `decodeAudioData`,
  `Math.max` cursor advance and buffer scheduling;
* the teardown routine `stopSession` with its per-resource guards,
  together with the ordered trace of release calls it performs.

Bytes are `Nat` values `< 256`; audio samples and clock times are `ℚ`
(multiplication by `32768 = 2^15` is exact in binary floating point for
samples in `[-1, 1]`, so exact rational arithmetic is faithful on the
ranges the claims are about).
-/

namespace App

/-! ### Base64 (`btoa` / `atob`), from `src/utils/fileUtils.ts` -/

/-- The base64 alphabet used by the platform's `btoa` / `atob`. -/
def b64Alphabet : List Char :=
  ['A', 'B', 'C', 'D', 'E', 'F', 'G', 'H', 'I', 'J', 'K', 'L', 'M',
   'N', 'O', 'P', 'Q', 'R', 'S', 'T', 'U', 'V', 'W', 'X', 'Y', 'Z',
   'a', 'b', 'c', 'd', 'e', 'f', 'g', 'h', 'i', 'j', 'k', 'l', 'm',
   'n', 'o', 'p', 'q', 'r', 's', 't', 'u', 'v', 'w', 'x', 'y', 'z',
   '0', '1', '2', '3', '4', '5', '6', '7', '8', '9', '+', '/']

/-- Character for a sextet value. -/
def b64Char (n : Nat) : Char := b64Alphabet.getD n '?'

def b64IndexAux : List Char → Nat → Char → Option Nat
  | [], _, _ => none
  | a :: rest, i, c => if a = c then some i else b64IndexAux rest (i + 1) c

/-- Sextet value of an alphabet character (`none` for a non-alphabet
character, on which `atob` throws). -/
def b64Index (c : Char) : Option Nat := b64IndexAux b64Alphabet 0 c

/-- `btoa` grouping: three bytes become four alphabet characters, a
trailing group of one or two bytes is padded with `=`. -/
def btoaChunks : List Nat → List Char
  | [] => []
  | [a] => [b64Char (a / 4), b64Char (a % 4 * 16), '=', '=']
  | [a, b] => [b64Char (a / 4), b64Char (a % 4 * 16 + b / 16), b64Char (b % 16 * 4), '=']
  | a :: b :: c :: rest =>
      b64Char (a / 4) :: b64Char (a % 4 * 16 + b / 16) ::
      b64Char (b % 16 * 4 + c / 64) :: b64Char (c % 64) :: btoaChunks rest

/-- Models `encode` from `src/utils/fileUtils.ts`: the byte-to-char loop
(`String.fromCharCode` per byte) followed by `btoa`. -/
def encode (bytes : List Nat) : String := String.mk (btoaChunks bytes)

/-- The sextets emitted by `btoaChunks`, before the `=` padding. -/
def btoaSextets : List Nat → List Nat
  | [] => []
  | [a] => [a / 4, a % 4 * 16]
  | [a, b] => [a / 4, a % 4 * 16 + b / 16, b % 16 * 4]
  | a :: b :: c :: rest =>
      a / 4 :: (a % 4 * 16 + b / 16) :: (b % 16 * 4 + c / 64) :: c % 64 :: btoaSextets rest

/-- Number of `=` padding characters appended by `btoa`. -/
def padLen (l : List Nat) : Nat := (3 - l.length % 3) % 3

/-- Rebuild bytes from sextets (the bit-regrouping step of `atob`); a
trailing group of two or three sextets yields one or two bytes. -/
def sextetsToBytes : List Nat → List Nat
  | s0 :: s1 :: s2 :: s3 :: rest =>
      (s0 * 4 + s1 / 16) :: (s1 % 16 * 16 + s2 / 4) :: (s2 % 4 * 64 + s3) :: sextetsToBytes rest
  | [s0, s1] => [s0 * 4 + s1 / 16]
  | [s0, s1, s2] => [s0 * 4 + s1 / 16, s1 % 16 * 16 + s2 / 4]
  | _ => []

/-- Strip one or two leading `=` from a (reversed) character list. -/
def dropPadRev : List Char → List Char
  | [] => []
  | c :: rest =>
      if c = '=' then
        match rest with
        | c2 :: rest2 => if c2 = '=' then rest2 else rest
        | [] => []
      else c :: rest

def b64IndexList : List Char → Option (List Nat)
  | [] => some []
  | c :: cs => do
      let s ← b64Index c
      let rest ← b64IndexList cs
      pure (s :: rest)

/-- Models the platform's forgiving-base64 `atob`: when the length is a
multiple of four, up to two trailing `=` are removed; a remaining length
`≡ 1 (mod 4)` or any non-alphabet character is an error. -/
def atobList (cs : List Char) : Option (List Nat) :=
  let body := if cs.length % 4 = 0 then (dropPadRev cs.reverse).reverse else cs
  if body.length % 4 = 1 then none
  else (b64IndexList body).map sextetsToBytes

/-- Models `decode` from `src/utils/fileUtils.ts`: `atob` followed by the
`charCodeAt` loop filling a `Uint8Array` (the identity on byte values). -/
def decode (s : String) : Option (List Nat) := atobList s.data

/-! ### Base64 round-trip lemmas -/

/-- Three-at-a-time induction matching the byte-chunk recursions. -/
theorem chunk3Induction {motive : List Nat → Prop} (h0 : motive [])
    (h1 : ∀ a, motive [a]) (h2 : ∀ a b, motive [a, b])
    (h3 : ∀ a b c rest, motive rest → motive (a :: b :: c :: rest)) :
    ∀ l, motive l
  | [] => h0
  | [a] => h1 a
  | [a, b] => h2 a b
  | a :: b :: c :: rest => h3 a b c rest (chunk3Induction h0 h1 h2 h3 rest)

theorem b64Index_b64Char : ∀ n, n < 64 → b64Index (b64Char n) = some n := by decide

theorem b64Char_ne_eq : ∀ n, n < 64 → b64Char n ≠ '=' := by decide

theorem btoaSextets_lt (l : List Nat) (h : ∀ x ∈ l, x < 256) :
    ∀ s ∈ btoaSextets l, s < 64 := by
  induction l using chunk3Induction with
  | h0 => simp [btoaSextets]
  | h1 a =>
      have := h a (by simp)
      simp only [btoaSextets, List.mem_cons, List.not_mem_nil, or_false]
      rintro s (rfl | rfl) <;> omega
  | h2 a b =>
      have ha := h a (by simp)
      have hb := h b (by simp)
      simp only [btoaSextets, List.mem_cons, List.not_mem_nil, or_false]
      rintro s (rfl | rfl | rfl) <;> omega
  | h3 a b c rest ih =>
      have ha := h a (by simp)
      have hb := h b (by simp)
      have hc := h c (by simp)
      have hrest : ∀ x ∈ rest, x < 256 := fun x hx => h x (by simp [hx])
      simp only [btoaSextets, List.mem_cons]
      rintro s (rfl | rfl | rfl | rfl | hs)
      · omega
      · omega
      · omega
      · omega
      · exact ih hrest s hs

theorem btoaChunks_eq_sextets (l : List Nat) :
    btoaChunks l = (btoaSextets l).map b64Char ++ List.replicate (padLen l) '=' := by
  induction l using chunk3Induction with
  | h0 => simp [btoaChunks, btoaSextets, padLen]
  | h1 a => simp [btoaChunks, btoaSextets, padLen, List.replicate]
  | h2 a b => simp [btoaChunks, btoaSextets, padLen, List.replicate]
  | h3 a b c rest ih =>
      have hpad : padLen (a :: b :: c :: rest) = padLen rest := by
        simp only [padLen, List.length_cons]
        omega
      simp [btoaChunks, btoaSextets, ih, hpad]

theorem btoaSextets_length (l : List Nat) :
    (btoaSextets l).length = l.length / 3 * 4 + (if l.length % 3 = 0 then 0 else l.length % 3 + 1) := by
  induction l using chunk3Induction with
  | h0 => simp [btoaSextets]
  | h1 a => simp [btoaSextets]
  | h2 a b => simp [btoaSextets]
  | h3 a b c rest ih =>
      simp only [btoaSextets, List.length_cons, ih]
      have h3s : (3 + rest.length) / 3 = rest.length / 3 + 1 := by omega
      have h3m : (3 + rest.length) % 3 = rest.length % 3 := by omega
      simp only [show rest.length + 1 + 1 + 1 = 3 + rest.length by omega, h3s, h3m]
      omega

theorem b64IndexList_map (sxts : List Nat) (h : ∀ s ∈ sxts, s < 64) :
    b64IndexList (sxts.map b64Char) = some sxts := by
  induction sxts with
  | nil => simp [b64IndexList]
  | cons s rest ih =>
      have hs := h s (by simp)
      have hrest : ∀ x ∈ rest, x < 64 := fun x hx => h x (by simp [hx])
      simp [b64IndexList, b64Index_b64Char s hs, ih hrest]

theorem sextetsToBytes_btoaSextets (l : List Nat) (h : ∀ x ∈ l, x < 256) :
    sextetsToBytes (btoaSextets l) = l := by
  induction l using chunk3Induction with
  | h0 => simp [btoaSextets, sextetsToBytes]
  | h1 a =>
      have ha := h a (by simp)
      simp only [btoaSextets, sextetsToBytes, List.cons.injEq, and_true]
      omega
  | h2 a b =>
      have ha := h a (by simp)
      have hb := h b (by simp)
      simp only [btoaSextets, sextetsToBytes, List.cons.injEq, and_true]
      constructor <;> omega
  | h3 a b c rest ih =>
      have ha := h a (by simp)
      have hb := h b (by simp)
      have hc := h c (by simp)
      have hrest : ∀ x ∈ rest, x < 256 := fun x hx => h x (by simp [hx])
      simp only [btoaSextets, sextetsToBytes, List.cons.injEq]
      refine ⟨by omega, by omega, by omega, ih hrest⟩

theorem dropPadRev_strip (p : Nat) (hp : p ≤ 2) (cs : List Char)
    (h : ∀ c ∈ cs, c ≠ '=') :
    dropPadRev (List.replicate p '=' ++ cs) = cs := by
  have hcase : p = 0 ∨ p = 1 ∨ p = 2 := by omega
  rcases hcase with rfl | rfl | rfl
  · cases cs with
    | nil => simp [dropPadRev]
    | cons c rest => simp [dropPadRev, h c (by simp)]
  · cases cs with
    | nil => simp [dropPadRev]
    | cons c rest => simp [dropPadRev, h c (by simp)]
  · simp [dropPadRev]

/-- Stripping the padding of an encoded chunk list recovers exactly the
sextet characters. -/
theorem dropPadRev_encode (l : List Nat) (h : ∀ x ∈ l, x < 256) :
    (dropPadRev (btoaChunks l).reverse).reverse = (btoaSextets l).map b64Char := by
  rw [btoaChunks_eq_sextets]
  have hpad : padLen l ≤ 2 := by simp only [padLen]; omega
  have hvalid : ∀ c ∈ ((btoaSextets l).map b64Char).reverse, c ≠ '=' := by
    intro c hc
    simp only [List.mem_reverse, List.mem_map] at hc
    obtain ⟨s, hs, rfl⟩ := hc
    exact b64Char_ne_eq s (btoaSextets_lt l h s hs)
  rw [List.reverse_append, List.reverse_replicate,
    dropPadRev_strip (padLen l) hpad _ hvalid, List.reverse_reverse]

theorem btoaChunks_length_mod (l : List Nat) : (btoaChunks l).length % 4 = 0 := by
  rw [btoaChunks_eq_sextets]
  simp only [List.length_append, List.length_map, List.length_replicate,
    btoaSextets_length, padLen]
  have h3 : l.length % 3 = 0 ∨ l.length % 3 = 1 ∨ l.length % 3 = 2 := by omega
  rcases h3 with h3 | h3 | h3 <;> simp [h3] <;> omega

theorem btoaSextets_length_mod (l : List Nat) : (btoaSextets l).length % 4 ≠ 1 := by
  rw [btoaSextets_length]
  have h3 : l.length % 3 = 0 ∨ l.length % 3 = 1 ∨ l.length % 3 = 2 := by omega
  rcases h3 with h3 | h3 | h3 <;> simp [h3] <;> omega

/-- `atob` inverts `btoa` on byte sequences. -/
theorem atob_btoa (l : List Nat) (h : ∀ x ∈ l, x < 256) :
    atobList (btoaChunks l) = some l := by
  unfold atobList
  simp only [btoaChunks_length_mod l, if_pos, dropPadRev_encode l h]
  rw [if_neg (by simpa using btoaSextets_length_mod l)]
  rw [b64IndexList_map _ (btoaSextets_lt l h)]
  simp [sextetsToBytes_btoaSextets l h]

/-- `decode` inverts `encode` on byte sequences. -/
theorem decode_encode_bytes (l : List Nat) (h : ∀ x ∈ l, x < 256) :
    decode (encode l) = some l := by
  unfold decode encode
  exact atob_btoa l h

/-! ### Capture path: the `onaudioprocess` handler of `AudioConverseStudio`
(`src/App.tsx`, lines 631-640) -/

/-- Truncation toward zero, as JavaScript's ToIntegerOrInfinity does on a
finite number. -/
def jsTrunc (q : ℚ) : Int := if 0 ≤ q then ⌊q⌋ else ⌈q⌉

/-- ECMAScript ToInt16, applied when a number is stored into an
`Int16Array` element: truncate toward zero, reduce modulo 2^16, and
re-interpret as a signed 16-bit value (wrapping, not clamping). -/
def toInt16 (q : ℚ) : Int :=
  if 32768 ≤ jsTrunc q % 65536 then jsTrunc q % 65536 - 65536
  else jsTrunc q % 65536

/-- One sample of `new Int16Array(inputData.map(x => x * 32768))`:
the multiplication by `32768 = 2^15` is exact in floating point, the
`Int16Array` store applies ToInt16. -/
def convertSample (x : ℚ) : Int := toInt16 (x * 32768)

/-- The two bytes a 16-bit integer occupies in the `Int16Array`'s buffer,
viewed through `new Uint8Array(...)` (little-endian platform order). -/
def int16ToBytes (i : Int) : List Nat :=
  [(i % 65536).toNat % 256, (i % 65536).toNat / 256]

/-- Byte payload of one captured block before base64:
`new Uint8Array(new Int16Array(inputData.map(x => x * 32768)).buffer)`. -/
def encodeAudioBlock (samples : List ℚ) : List Nat :=
  ((samples.map convertSample).map int16ToBytes).flatten

/-- Models `GenAIBlob` values `{ data, mimeType }`. -/
structure GenAIBlob where
  data : String
  mimeType : String

/-- The `pcmBlob` built for one captured block. -/
def mkPcmBlob (samples : List ℚ) : GenAIBlob :=
  { data := encode (encodeAudioBlock samples), mimeType := "audio/pcm;rate=16000" }

/-- SessionHandle states from the spec's state machine. -/
inductive SessionPhase
  | idle
  | opening
  | opened
  | closing
  | closed
deriving DecidableEq

/-- Models the `onaudioprocess` handler: it builds `pcmBlob` and runs
`sessionPromise.then(session => session.sendRealtimeInput({media: pcmBlob}))`.
The send fires whenever the session promise has resolved; the handler
never consults the session's phase (the `phase` argument is unused by the
source), and no error from the send is caught. Returns the frames handed
to the transport for this block. -/
def onAudioProcess (sessionResolved : Bool) (phase : SessionPhase)
    (samples : List ℚ) : List GenAIBlob :=
  if sessionResolved then [mkPcmBlob samples] else []

/-- Frames sent for a sequence of captured blocks (one handler invocation
per block, in order), with the session promise resolved. -/
def captureFrames (phase : SessionPhase) (blocks : List (List ℚ)) : List GenAIBlob :=
  (blocks.map (onAudioProcess true phase)).flatten

/-! ### `decodeAudioData` from `src/utils/fileUtils.ts` -/

/-- The signed 16-bit value an `Int16Array` reads from two little-endian
bytes. -/
def int16OfBytes (b0 b1 : Nat) : Int :=
  if 32768 ≤ b0 + 256 * b1 then (b0 : Int) + 256 * b1 - 65536
  else (b0 : Int) + 256 * b1

/-- Consecutive byte pairs of the payload (the `Int16Array` view). -/
def pairsOf : List Nat → List (Nat × Nat)
  | b0 :: b1 :: rest => (b0, b1) :: pairsOf rest
  | _ => []

/-- The `AudioBuffer` produced by `ctx.createBuffer` and filled by
`decodeAudioData`. -/
structure AudioBufferModel where
  numChannels : Nat
  frameCount : Nat
  sampleRate : Nat
  channels : List (List ℚ)

/-- `buffer.duration` of a Web Audio buffer: frame count over sample
rate. -/
def bufferDuration (buf : AudioBufferModel) : ℚ :=
  (buf.frameCount : ℚ) / (buf.sampleRate : ℚ)

/-- Models `decodeAudioData`: interpret the bytes as an `Int16Array`
(little-endian; `none` when the byte length is odd, where the
`Int16Array` constructor throws), split into `numChannels` interleaved
channels of `frameCount = dataInt16.length / numChannels` frames, and
scale each sample by `1 / 32768`. -/
def decodeAudioData (data : List Nat) (sampleRate numChannels : Nat) :
    Option AudioBufferModel :=
  if data.length % 2 ≠ 0 then none
  else
    let dataInt16 := (pairsOf data).map (fun p => int16OfBytes p.1 p.2)
    let frameCount := dataInt16.length / numChannels
    some { numChannels := numChannels
           frameCount := frameCount
           sampleRate := sampleRate
           channels := (List.range numChannels).map (fun ch =>
             (List.range frameCount).map (fun i =>
               ((dataInt16.getD (i * numChannels + ch) 0 : ℚ)) / 32768)) }

/-! ### Capture-path lemmas -/

theorem encodeAudioBlock_cons (x : ℚ) (rest : List ℚ) :
    encodeAudioBlock (x :: rest) = int16ToBytes (convertSample x) ++ encodeAudioBlock rest := by
  simp [encodeAudioBlock]

theorem int16ToBytes_lt (i : Int) : ∀ b ∈ int16ToBytes i, b < 256 := by
  simp only [int16ToBytes, List.mem_cons, List.not_mem_nil, or_false]
  rintro b (rfl | rfl) <;> omega

theorem encodeAudioBlock_lt (samples : List ℚ) :
    ∀ b ∈ encodeAudioBlock samples, b < 256 := by
  induction samples with
  | nil => simp [encodeAudioBlock]
  | cons x rest ih =>
      rw [encodeAudioBlock_cons]
      intro b hb
      rcases List.mem_append.mp hb with hb | hb
      · exact int16ToBytes_lt _ b hb
      · exact ih b hb

theorem encodeAudioBlock_length (samples : List ℚ) :
    (encodeAudioBlock samples).length = 2 * samples.length := by
  induction samples with
  | nil => simp [encodeAudioBlock]
  | cons x rest ih =>
      rw [encodeAudioBlock_cons]
      simp only [List.length_append, ih, int16ToBytes, List.length_cons,
        List.length_nil, List.length_cons]
      omega

theorem toInt16_range (q : ℚ) : -32768 ≤ toInt16 q ∧ toInt16 q ≤ 32767 := by
  unfold toInt16
  have h0 : 0 ≤ jsTrunc q % 65536 := Int.emod_nonneg _ (by norm_num)
  have h1 : jsTrunc q % 65536 < 65536 := Int.emod_lt_of_pos _ (by norm_num)
  split <;> omega

theorem convertSample_range (x : ℚ) :
    -32768 ≤ convertSample x ∧ convertSample x ≤ 32767 := toInt16_range _

theorem int16OfBytes_int16ToBytes (i : Int) (h1 : -32768 ≤ i) (h2 : i ≤ 32767) :
    int16OfBytes ((i % 65536).toNat % 256) ((i % 65536).toNat / 256) = i := by
  unfold int16OfBytes
  split <;> omega

theorem pairs_encodeAudioBlock (samples : List ℚ) :
    (pairsOf (encodeAudioBlock samples)).map (fun p => int16OfBytes p.1 p.2)
      = samples.map convertSample := by
  induction samples with
  | nil => simp [encodeAudioBlock, pairsOf]
  | cons x rest ih =>
      rw [encodeAudioBlock_cons]
      simp only [int16ToBytes, List.cons_append, List.nil_append]
      simp only [pairsOf, List.map_cons]
      rw [ih]
      obtain ⟨hl, hr⟩ := convertSample_range x
      rw [int16OfBytes_int16ToBytes (convertSample x) hl hr]

theorem range_map_getD {α β : Type} (l : List α) (d : α) (g : α → β) :
    (List.range l.length).map (fun i => g (l.getD i d)) = l.map g := by
  apply List.ext_getElem
  · simp
  · intro i h1 h2
    simp only [List.getElem_map, List.getElem_range]
    rw [List.getD_eq_getElem]

/-- Decoding an encoded capture block at one channel recovers exactly the
converted samples, scaled back by `1 / 32768`: the serialization is
little-endian 16-bit. -/
theorem decodeAudioData_encodeAudioBlock (samples : List ℚ) (sr : Nat) :
    decodeAudioData (encodeAudioBlock samples) sr 1 =
      some { numChannels := 1
             frameCount := samples.length
             sampleRate := sr
             channels := [samples.map (fun x => ((convertSample x : ℚ)) / 32768)] } := by
  unfold decodeAudioData
  rw [if_neg (by simp [encodeAudioBlock_length])]
  have hrange1 : List.range 1 = [0] := rfl
  simp only [pairs_encodeAudioBlock, List.length_map, Nat.div_one, hrange1,
    List.map_cons, List.map_nil, Nat.mul_one, Nat.add_zero]
  have h2 := range_map_getD (samples.map convertSample) 0
    (fun v : Int => ((v : ℚ) / 32768))
  rw [List.length_map] at h2
  rw [h2, List.map_map]
  rfl

/-! ### The `onmessage` handler of `AudioConverseStudio`
(`src/App.tsx`, lines 644-668) -/

/-- The fields of a `LiveServerMessage` the handler reads:
`serverContent.inputTranscription.text`, `.outputTranscription.text`,
`.turnComplete`, and `.modelTurn.parts[0].inlineData` (base64 `data` plus
a `mimeType`, which the handler never reads). -/
structure ServerMessage where
  inputTranscription : Option String
  outputTranscription : Option String
  turnComplete : Bool
  audioData : Option String
  audioMime : String

/-- The mutable state the `onmessage` closure touches:
the two transcription accumulators, the `transcriptions` list, the
`nextStartTime` cursor, and the ordered list of `(startTime, duration)`
pairs passed to `source.start` (one per scheduled buffer). -/
structure ConvState where
  currentInputTranscription : String
  currentOutputTranscription : String
  transcriptions : List (String × String)
  nextStartTime : ℚ
  scheduled : List (ℚ × ℚ)
deriving DecidableEq

/-- State at `handleStartConversation`: empty accumulators, empty
transcript list, `nextStartTime = 0`, nothing scheduled. -/
def initState : ConvState :=
  { currentInputTranscription := ""
    currentOutputTranscription := ""
    transcriptions := []
    nextStartTime := 0
    scheduled := [] }

/-- The three transcript steps of the handler, in source order: append
input text, append output text, then on `turnComplete` emit the pair and
reset both accumulators. -/
def applyTranscripts (st : ConvState) (msg : ServerMessage) : ConvState :=
  let st1 := match msg.inputTranscription with
    | some t => { st with currentInputTranscription := st.currentInputTranscription ++ t }
    | none => st
  let st2 := match msg.outputTranscription with
    | some t => { st1 with currentOutputTranscription := st1.currentOutputTranscription ++ t }
    | none => st1
  if msg.turnComplete then
    { st2 with
      transcriptions := st2.transcriptions ++
        [(st2.currentInputTranscription, st2.currentOutputTranscription)]
      currentInputTranscription := ""
      currentOutputTranscription := "" }
  else st2

/-- The audio tail of the handler. When `base64Audio` is present:
`nextStartTime = Math.max(nextStartTime, currentTime)` runs first; then
`decodeAudioData(decode(base64Audio), ..., 24000, 1)`; a throw from
`decode` (malformed base64) or from the `Int16Array` constructor (odd
byte length) aborts the rest of the handler, leaving the already-updated
`nextStartTime`; on success the buffer is scheduled at `nextStartTime`
and the cursor advances by its duration. The `mimeType` of the inline
data is never consulted. -/
def applyAudio (clock : ℚ) (st : ConvState) (msg : ServerMessage) : ConvState :=
  match msg.audioData with
  | none => st
  | some base64Audio =>
    let nst := max st.nextStartTime clock
    match decode base64Audio with
    | none => { st with nextStartTime := nst }
    | some bytes =>
      match decodeAudioData bytes 24000 1 with
      | none => { st with nextStartTime := nst }
      | some audioBuffer =>
        { st with
          nextStartTime := nst + bufferDuration audioBuffer
          scheduled := st.scheduled ++ [(nst, bufferDuration audioBuffer)] }

/-- One `onmessage` invocation: transcript handling, then the audio tail,
with `clock` the output context's `currentTime`. -/
def onmessage (clock : ℚ) (st : ConvState) (msg : ServerMessage) : ConvState :=
  applyAudio clock (applyTranscripts st msg) msg

/-- Process a sequence of messages, each with its observed clock value. -/
def runMessages (st : ConvState) : List (ℚ × ServerMessage) → ConvState
  | [] => st
  | e :: rest => runMessages (onmessage e.1 st e.2) rest

/-- All intermediate states of a message sequence, starting state
included. -/
def stateTrace (st : ConvState) : List (ℚ × ServerMessage) → List ConvState
  | [] => [st]
  | e :: rest => st :: stateTrace (onmessage e.1 st e.2) rest

/-- A `TranscriptDelta{user, text}`: a message carrying only
`inputTranscription`. -/
def transcriptDeltaUser (t : String) : ServerMessage :=
  { inputTranscription := some t, outputTranscription := none,
    turnComplete := false, audioData := none, audioMime := "" }

/-- A `TranscriptDelta{model, text}`: a message carrying only
`outputTranscription`. -/
def transcriptDeltaModel (t : String) : ServerMessage :=
  { inputTranscription := none, outputTranscription := some t,
    turnComplete := false, audioData := none, audioMime := "" }

/-- A bare `TurnComplete` message. -/
def turnCompleteMsg : ServerMessage :=
  { inputTranscription := none, outputTranscription := none,
    turnComplete := true, audioData := none, audioMime := "" }

/-- An `AudioChunk{mimeDescriptor, payload}` message: inline data with a
base64 payload and a mime descriptor. -/
def audioChunkMsg (mime b64 : String) : ServerMessage :=
  { inputTranscription := none, outputTranscription := none,
    turnComplete := false, audioData := some b64, audioMime := mime }

/-! ### The `stopSession` teardown routine (`src/App.tsx`, lines 574-604) -/

/-- Observable state of an `AudioContext`. -/
inductive CtxState
  | running
  | closed
deriving DecidableEq

/-- The refs owned by `AudioConverseStudio`, as `stopSession` sees them:
`sessionRef`, `streamRef` (with its track count), `scriptProcessorRef`,
`sourceRef`, the two audio contexts, and the `isSessionActive` flag. -/
structure SessResources where
  session : Bool
  streamTracks : Option Nat
  scriptProcessor : Bool
  source : Bool
  inputCtx : Option CtxState
  outputCtx : Option CtxState
  isActive : Bool
deriving DecidableEq

/-- One release call performed during teardown, in the order
`stopSession` performs them. -/
inductive RelEvent
  | closeSession
  | stopTrack
  | disconnectProcessor
  | disconnectSource
  | closeInputCtx
  | closeOutputCtx
  | setInactive
deriving DecidableEq

/-- Models `stopSession`: each guarded step of the source in order —
close and null the session ref, stop every track and null the stream
ref, disconnect and null the two nodes, close each audio context only
when non-null and not already closed, null both context refs, and set
`isSessionActive` to `false` last. Returns the new ref state and the
ordered trace of calls made. -/
def stopSession (s : SessResources) : SessResources × List RelEvent :=
  let p1 := if s.session then ({ s with session := false }, [RelEvent.closeSession])
            else (s, [])
  let p2 := match p1.1.streamTracks with
    | some n => ({ p1.1 with streamTracks := none }, List.replicate n RelEvent.stopTrack)
    | none => (p1.1, [])
  let p3 := if p2.1.scriptProcessor then
              ({ p2.1 with scriptProcessor := false }, [RelEvent.disconnectProcessor])
            else (p2.1, [])
  let p4 := if p3.1.source then
              ({ p3.1 with source := false }, [RelEvent.disconnectSource])
            else (p3.1, [])
  let e5 := match p4.1.inputCtx with
    | some CtxState.running => [RelEvent.closeInputCtx]
    | _ => []
  let e6 := match p4.1.outputCtx with
    | some CtxState.running => [RelEvent.closeOutputCtx]
    | _ => []
  let s5 := { p4.1 with inputCtx := none, outputCtx := none, isActive := false }
  (s5, p1.2 ++ p2.2 ++ p3.2 ++ p4.2 ++ e5 ++ e6 ++ [RelEvent.setInactive])

/-- The ref state every run of `stopSession` ends in. -/
def clearedState : SessResources :=
  { session := false, streamTracks := none, scriptProcessor := false,
    source := false, inputCtx := none, outputCtx := none, isActive := false }

/-- A fully-populated active session: every resource present, contexts
running, one input track. -/
def fullSession : SessResources :=
  { session := true, streamTracks := some 1, scriptProcessor := true,
    source := true, inputCtx := some CtxState.running,
    outputCtx := some CtxState.running, isActive := true }

/-- Occurrences of one release call in a trace. -/
def countEvent (e : RelEvent) : List RelEvent → Nat
  | [] => 0
  | x :: rest => (if x = e then 1 else 0) + countEvent e rest

/-! ### Teardown lemmas -/

theorem stopSession_fst (s : SessResources) : (stopSession s).1 = clearedState := by
  obtain ⟨ses, tr, sp, src, ic, oc, act⟩ := s
  cases ses <;> cases sp <;> cases src <;> rcases tr with _ | n <;>
    simp [stopSession, clearedState]

theorem stopSession_snd_cleared : (stopSession clearedState).2 = [RelEvent.setInactive] := by
  decide

theorem stopSession_getLast (s : SessResources) :
    (stopSession s).2.getLast? = some RelEvent.setInactive := by
  unfold stopSession
  dsimp only
  exact List.getLast?_concat _

theorem stopSession_fullSession_trace :
    (stopSession fullSession).2 =
      [RelEvent.closeSession, RelEvent.stopTrack, RelEvent.disconnectProcessor,
       RelEvent.disconnectSource, RelEvent.closeInputCtx, RelEvent.closeOutputCtx,
       RelEvent.setInactive] := by
  decide

/-! ### `onmessage` lemmas -/

theorem applyTranscripts_nextStartTime (st : ConvState) (msg : ServerMessage) :
    (applyTranscripts st msg).nextStartTime = st.nextStartTime := by
  obtain ⟨it, ot, tc, ad, am⟩ := msg
  cases it <;> cases ot <;> cases tc <;> simp [applyTranscripts]

theorem applyTranscripts_scheduled (st : ConvState) (msg : ServerMessage) :
    (applyTranscripts st msg).scheduled = st.scheduled := by
  obtain ⟨it, ot, tc, ad, am⟩ := msg
  cases it <;> cases ot <;> cases tc <;> simp [applyTranscripts]

theorem bufferDuration_nonneg (buf : AudioBufferModel) : 0 ≤ bufferDuration buf :=
  div_nonneg (by positivity) (by positivity)

theorem onmessage_nst_mono (clock : ℚ) (st : ConvState) (msg : ServerMessage) :
    st.nextStartTime ≤ (onmessage clock st msg).nextStartTime := by
  unfold onmessage applyAudio
  have h := applyTranscripts_nextStartTime st msg
  cases had : msg.audioData with
  | none => simp [had, h]
  | some b64 =>
      simp only [had]
      cases hd : decode b64 with
      | none => simp only [hd]; rw [h]; exact le_max_left _ _
      | some bytes =>
          simp only [hd]
          cases hdd : decodeAudioData bytes 24000 1 with
          | none => simp only [hdd]; rw [h]; exact le_max_left _ _
          | some buf =>
              simp only [hdd]
              rw [h]
              have h1 := bufferDuration_nonneg buf
              have h2 : st.nextStartTime ≤ max st.nextStartTime clock := le_max_left _ _
              linarith

theorem stateTrace_head (st : ConvState) (evs : List (ℚ × ServerMessage)) :
    (stateTrace st evs).head? = some st := by
  cases evs <;> rfl

/-! ### Transcript-path helpers -/

theorem onmessage_deltaUser (clock : ℚ) (st : ConvState) (t : String) :
    onmessage clock st (transcriptDeltaUser t) =
      { st with currentInputTranscription := st.currentInputTranscription ++ t } := by
  simp [onmessage, applyTranscripts, applyAudio, transcriptDeltaUser]

theorem onmessage_deltaModel (clock : ℚ) (st : ConvState) (t : String) :
    onmessage clock st (transcriptDeltaModel t) =
      { st with currentOutputTranscription := st.currentOutputTranscription ++ t } := by
  simp [onmessage, applyTranscripts, applyAudio, transcriptDeltaModel]

theorem onmessage_turnComplete (clock : ℚ) (st : ConvState) :
    onmessage clock st turnCompleteMsg =
      { st with
        transcriptions := st.transcriptions ++
          [(st.currentInputTranscription, st.currentOutputTranscription)]
        currentInputTranscription := ""
        currentOutputTranscription := "" } := by
  simp [onmessage, applyTranscripts, applyAudio, turnCompleteMsg]

/-- Concatenation of the user-role texts of a delta sequence, in order. -/
def userText (deltas : List (Bool × String)) : String :=
  match deltas with
  | [] => ""
  | (role, t) :: rest => (if role then t else "") ++ userText rest

/-- Concatenation of the model-role texts of a delta sequence, in order. -/
def modelText (deltas : List (Bool × String)) : String :=
  match deltas with
  | [] => ""
  | (role, t) :: rest => (if role then "" else t) ++ modelText rest

/-- The wire messages for a delta sequence (`true` = user role). -/
def deltaMsgs (deltas : List (Bool × String)) : List (ℚ × ServerMessage) :=
  deltas.map (fun d =>
    ((0 : ℚ), if d.1 then transcriptDeltaUser d.2 else transcriptDeltaModel d.2))

theorem runMessages_append (st : ConvState) (l1 l2 : List (ℚ × ServerMessage)) :
    runMessages st (l1 ++ l2) = runMessages (runMessages st l1) l2 := by
  induction l1 generalizing st with
  | nil => simp [runMessages]
  | cons e rest ih => simp [runMessages, ih]

theorem run_deltas (deltas : List (Bool × String)) (st : ConvState) :
    runMessages st (deltaMsgs deltas) =
      { st with
        currentInputTranscription := st.currentInputTranscription ++ userText deltas
        currentOutputTranscription := st.currentOutputTranscription ++ modelText deltas } := by
  induction deltas generalizing st with
  | nil => simp [deltaMsgs, runMessages, userText, modelText]
  | cons d rest ih =>
      obtain ⟨role, t⟩ := d
      cases role
      · simp only [deltaMsgs, List.map_cons, runMessages, if_neg Bool.false_ne_true]
        rw [onmessage_deltaModel]
        have := ih { st with
          currentOutputTranscription := st.currentOutputTranscription ++ t }
        rw [show deltaMsgs rest = rest.map (fun d =>
          ((0 : ℚ), if d.1 then transcriptDeltaUser d.2 else transcriptDeltaModel d.2)) from rfl] at this
        rw [this]
        simp [userText, modelText, String.append_assoc]
      · simp only [deltaMsgs, List.map_cons, runMessages, if_pos]
        rw [onmessage_deltaUser]
        have := ih { st with
          currentInputTranscription := st.currentInputTranscription ++ t }
        rw [show deltaMsgs rest = rest.map (fun d =>
          ((0 : ℚ), if d.1 then transcriptDeltaUser d.2 else transcriptDeltaModel d.2)) from rfl] at this
        rw [this]
        simp [userText, modelText, String.append_assoc]

/-! ### Audio-chunk helpers -/

theorem chunk2Induction {motive : List Nat → Prop} (h0 : motive [])
    (h1 : ∀ a, motive [a]) (h2 : ∀ a b rest, motive rest → motive (a :: b :: rest)) :
    ∀ l, motive l
  | [] => h0
  | [a] => h1 a
  | a :: b :: rest => h2 a b rest (chunk2Induction h0 h1 h2 rest)

theorem pairsOf_length (l : List Nat) : (pairsOf l).length = l.length / 2 := by
  induction l using chunk2Induction with
  | h0 => simp [pairsOf]
  | h1 a => simp [pairsOf]
  | h2 a b rest ih =>
      simp only [pairsOf, List.length_cons, ih]
      omega

theorem decodeAudioData_even (bytes : List Nat) (h : bytes.length % 2 = 0) :
    ∃ buf, decodeAudioData bytes 24000 1 = some buf ∧
      bufferDuration buf = ((bytes.length / 2 : Nat) : ℚ) / 24000 := by
  unfold decodeAudioData
  rw [if_neg (by omega)]
  exact ⟨_, rfl, by simp [bufferDuration, pairsOf_length]⟩

theorem applyTranscripts_audioChunk (st : ConvState) (mime b64 : String) :
    applyTranscripts st (audioChunkMsg mime b64) = st := by
  simp [applyTranscripts, audioChunkMsg]

theorem onmessage_audioChunk_valid (clock : ℚ) (st : ConvState) (mime b64 : String)
    (bytes : List Nat) (hdec : decode b64 = some bytes) (heven : bytes.length % 2 = 0) :
    onmessage clock st (audioChunkMsg mime b64) =
      { st with
        nextStartTime := max st.nextStartTime clock + ((bytes.length / 2 : Nat) : ℚ) / 24000
        scheduled := st.scheduled ++
          [(max st.nextStartTime clock, ((bytes.length / 2 : Nat) : ℚ) / 24000)] } := by
  obtain ⟨buf, hbuf, hdur⟩ := decodeAudioData_even bytes heven
  unfold onmessage
  rw [applyTranscripts_audioChunk]
  unfold applyAudio
  simp only [audioChunkMsg]
  simp only [hdec, hbuf, hdur]

theorem onmessage_audioChunk_fail (clock : ℚ) (st : ConvState) (mime b64 : String)
    (hfail : decode b64 = none ∨
      ∃ bytes, decode b64 = some bytes ∧ bytes.length % 2 = 1) :
    onmessage clock st (audioChunkMsg mime b64) =
      { st with nextStartTime := max st.nextStartTime clock } := by
  unfold onmessage
  rw [applyTranscripts_audioChunk]
  unfold applyAudio
  simp only [audioChunkMsg]
  rcases hfail with hf | ⟨bytes, hd, hodd⟩
  · simp [hf]
  · have hdd : decodeAudioData bytes 24000 1 = none := by
      unfold decodeAudioData
      rw [if_pos (by omega)]
    simp [hd, hdd]

theorem captureFrames_eq (phase : SessionPhase) (blocks : List (List ℚ)) :
    captureFrames phase blocks = blocks.map mkPcmBlob := by
  induction blocks with
  | nil => simp [captureFrames]
  | cons b rest ih =>
      simp only [captureFrames, List.map_cons, List.flatten_cons, onAudioProcess] at *
      simp [ih]

/-! ### Claim theorems -/

/-- Modelled from the spec's words, for comparison only (the source does
not contain this conversion): scale the sample to full range through the
factor 32767/32768 (i.e. multiply by 32767), round to nearest, and clamp
to the signed 16-bit range. -/
def specConvertSample (x : ℚ) : Int :=
  max (-32768) (min 32767 (round (x * (32767 / 32768) * 32768)))

theorem convertSample_one : convertSample 1 = -32768 := by
  unfold convertSample toInt16 jsTrunc
  rw [show ((1 : ℚ) * 32768) = ((32768 : Int) : ℚ) by norm_num, Int.floor_intCast,
    if_pos (by norm_num)]
  decide

/-- C1 counterexample: the source converts with `x * 32768` truncated and
wrapped by the `Int16Array` store, so the full-scale sample `1.0` wraps
to `-32768`, while the claimed round-and-clamp conversion yields `32767`;
the conversions disagree at `x = 1`. -/
theorem c1_counterexample :
    convertSample 1 = -32768 ∧
    specConvertSample 1 = 32767 ∧
    convertSample 1 ≠ specConvertSample 1 := by
  have h1 := convertSample_one
  have h2 : specConvertSample 1 = 32767 := by
    unfold specConvertSample
    rw [show ((1 : ℚ) * (32767 / 32768) * 32768) = ((32767 : Int) : ℚ) by norm_num,
      round_intCast]
    decide
  exact ⟨h1, h2, by rw [h1, h2]; decide⟩

/-- C1 (amended): each captured sample is converted by multiplying by
32768, truncating toward zero and reducing modulo 2^16 into a signed
16-bit value — wrapping, not clamping, so `1.0` maps to `-32768` while
samples in `[-1, 1)` convert without wrapping — and the integers are
serialized two bytes each in little-endian order, as witnessed by the
little-endian `Int16Array` reader `decodeAudioData` recovering exactly
the converted values. -/
theorem c1_conversion (samples : List ℚ) :
    (decodeAudioData (encodeAudioBlock samples) 24000 1 =
      some { numChannels := 1
             frameCount := samples.length
             sampleRate := 24000
             channels := [samples.map (fun x => ((convertSample x : ℚ)) / 32768)] }) ∧
    (∀ x : ℚ, -1 ≤ x → x < 1 → convertSample x = jsTrunc (x * 32768)) ∧
    convertSample 1 = -32768 := by
  refine ⟨decodeAudioData_encodeAudioBlock samples 24000, ?_, convertSample_one⟩
  intro x hx1 hx2
  have hb : -32768 ≤ jsTrunc (x * 32768) ∧ jsTrunc (x * 32768) ≤ 32767 := by
    unfold jsTrunc
    split
    · constructor
      · have h0 : (0 : Int) ≤ ⌊x * 32768⌋ := Int.floor_nonneg.mpr (by assumption)
        omega
      · have hlt : ⌊x * 32768⌋ < 32768 := by
          rw [Int.floor_lt]
          push_cast
          nlinarith
        omega
    · constructor
      · have hge : ((-32768 : Int) : ℚ) ≤ x * 32768 := by push_cast; nlinarith
        have := Int.le_ceil (x * 32768)
        have : ((-32768 : Int) : ℚ) ≤ (⌈x * 32768⌉ : ℚ) := le_trans hge this
        exact_mod_cast this
      · have hle : ⌈x * 32768⌉ ≤ 0 := Int.ceil_le.mpr (by push_cast; linarith)
        omega
  unfold convertSample toInt16
  split <;> omega

/-- C1 witness. -/
theorem c1_witness : convertSample 0 = jsTrunc (0 * 32768) :=
  (c1_conversion []).2.1 0 (by norm_num) (by norm_num)

/-- C2 counterexample: a chunk whose mime descriptor is unrecognized is
not skipped — the handler never reads the mime and schedules it, moving
`nextStartTime`; and a chunk whose payload fails to decode still
perturbs `nextStartTime`, which has already been advanced to
`max(nextStartTime, currentTime)` before the decode throws. -/
theorem c2_counterexample :
    (onmessage 0 initState (audioChunkMsg "audio/foo" (encode [0, 0]))).nextStartTime
        ≠ initState.nextStartTime ∧
    (onmessage 5 initState (audioChunkMsg "audio/pcm;rate=24000" "!")).nextStartTime
        ≠ initState.nextStartTime := by
  constructor
  · rw [onmessage_audioChunk_valid 0 initState "audio/foo" (encode [0, 0]) [0, 0]
      (decode_encode_bytes [0, 0] (by decide)) (by decide)]
    norm_num [initState]
  · rw [onmessage_audioChunk_fail 5 initState "audio/pcm;rate=24000" "!"
      (Or.inl (by decide))]
    norm_num [initState]

/-- C2 (amended): when decoding fails (malformed base64 or odd byte
length) the chunk is skipped — nothing is scheduled, the transcript
state is untouched, the handler performs no session teardown — and the
session continues with later messages; but `nextStartTime` is left at
`max(nextStartTime, currentTime)`, not at its prior value. The mime
descriptor is never inspected, so behaviour is identical for any mime
string, and an unrecognized mime does not cause a skip. -/
theorem c2_decode_failure (clock : ℚ) (st : ConvState) (mime b64 : String)
    (hfail : decode b64 = none ∨
      ∃ bytes, decode b64 = some bytes ∧ bytes.length % 2 = 1) :
    (onmessage clock st (audioChunkMsg mime b64)).scheduled = st.scheduled ∧
    (onmessage clock st (audioChunkMsg mime b64)).transcriptions = st.transcriptions ∧
    (onmessage clock st (audioChunkMsg mime b64)).nextStartTime = max st.nextStartTime clock ∧
    (∀ mime2 : String,
      onmessage clock st (audioChunkMsg mime2 b64) =
        onmessage clock st (audioChunkMsg mime b64)) := by
  have h := onmessage_audioChunk_fail clock st mime b64 hfail
  refine ⟨by rw [h], by rw [h], by rw [h], ?_⟩
  intro mime2
  rw [onmessage_audioChunk_fail clock st mime2 b64 hfail, h]

/-- C2 witness. -/
theorem c2_witness :
    (onmessage 5 initState (audioChunkMsg "x" "!")).scheduled = initState.scheduled ∧
    (onmessage 5 initState (audioChunkMsg "x" "!")).nextStartTime =
      max initState.nextStartTime 5 := by
  have h := c2_decode_failure 5 initState "x" "!" (Or.inl (by decide))
  exact ⟨h.1, h.2.2.1⟩

/-- C3: across any message sequence within a session, with arbitrary
output-clock observations at each step, `nextStartTime` never
decreases. -/
theorem c3_nextStartTime_monotone (st : ConvState) (evs : List (ℚ × ServerMessage)) :
    List.Chain' (fun a b => a ≤ b) ((stateTrace st evs).map ConvState.nextStartTime) := by
  induction evs generalizing st with
  | nil => simp [stateTrace]
  | cons e rest ih =>
      simp only [stateTrace, List.map_cons]
      rw [List.chain'_cons']
      refine ⟨?_, ih _⟩
      intro b hb
      rw [List.head?_map, stateTrace_head] at hb
      simp only [Option.map_some', Option.mem_def, Option.some.injEq] at hb
      subst hb
      exact onmessage_nst_mono e.1 st e.2

/-- C4 counterexample: from the already-cleared ref state (a session
state reachable after a prior teardown), two invocations of
`stopSession` invoke the session close zero times, not exactly once. -/
theorem c4_counterexample :
    countEvent RelEvent.closeSession
      ((stopSession clearedState).2 ++ (stopSession (stopSession clearedState).1).2) = 0 := by
  decide

/-- C4 (amended): teardown is idempotent — from any ref state the second
invocation performs no release call (only the final inactive-flag write)
and the state after the second run equals the state after the first; and
from a fully-populated active session (one input track) each release
function is invoked exactly once across the two runs. -/
theorem c4_teardown_idempotent (s : SessResources) :
    (stopSession (stopSession s).1).1 = (stopSession s).1 ∧
    (∀ e, e ∈ (stopSession (stopSession s).1).2 → e = RelEvent.setInactive) ∧
    (s = fullSession → ∀ e, e ≠ RelEvent.setInactive →
      countEvent e ((stopSession s).2 ++ (stopSession (stopSession s).1).2) = 1) := by
  refine ⟨?_, ?_, ?_⟩
  · rw [stopSession_fst, stopSession_fst]
  · rw [stopSession_fst, stopSession_snd_cleared]
    intro e he
    simpa using he
  · rintro rfl e he
    rw [stopSession_fst, stopSession_snd_cleared, stopSession_fullSession_trace]
    cases e
    · decide
    · decide
    · decide
    · decide
    · decide
    · decide
    · exact absurd rfl he

/-- C4 witness. -/
theorem c4_witness :
    (stopSession (stopSession fullSession).1).1 = (stopSession fullSession).1 ∧
    countEvent RelEvent.closeSession
      ((stopSession fullSession).2 ++ (stopSession (stopSession fullSession).1).2) = 1 :=
  ⟨(c4_teardown_idempotent fullSession).1,
   (c4_teardown_idempotent fullSession).2.2 rfl RelEvent.closeSession (by decide)⟩

/-- C5: N capture blocks delivered with the session resolved in the Open
phase yield exactly N frames, and each frame's byte payload (recovered
through `decode`) has length twice the block's sample count. -/
theorem c5_capture_counts (blocks : List (List ℚ)) :
    (captureFrames SessionPhase.opened blocks).length = blocks.length ∧
    (∀ i, i < blocks.length →
      ∃ f bytes, (captureFrames SessionPhase.opened blocks)[i]? = some f ∧
        decode f.data = some bytes ∧
        bytes.length = 2 * ((blocks[i]?.getD []).length)) := by
  rw [captureFrames_eq]
  refine ⟨by simp, ?_⟩
  intro i hi
  refine ⟨mkPcmBlob (blocks.getD i []), encodeAudioBlock (blocks.getD i []), ?_, ?_, ?_⟩
  · rw [List.getElem?_map, List.getElem?_eq_getElem hi]
    simp [List.getD_eq_getElem _ _ hi, List.getElem?_eq_getElem hi]
  · exact decode_encode_bytes _ (encodeAudioBlock_lt _)
  · rw [List.getElem?_eq_getElem hi]
    simp [encodeAudioBlock_length, List.getD_eq_getElem _ _ hi, List.getElem?_eq_getElem hi]

/-- C5 witness. -/
theorem c5_witness :
    ∃ f bytes, (captureFrames SessionPhase.opened [[(0 : ℚ), 0]])[0]? = some f ∧
      decode f.data = some bytes ∧
      bytes.length = 2 * ((([[(0 : ℚ), 0]] : List (List ℚ))[0]?.getD []).length) :=
  (c5_capture_counts [[0, 0]]).2 0 (by norm_num)

/-- C6: a successfully decoded chunk is scheduled at
`max(nextStartTime, currentTime)` and `nextStartTime` advances by
exactly the buffer duration (half the byte count over 24000); a 48000
byte (1000 ms) chunk followed by a 24000 byte (500 ms) chunk, with the
clock not passing the cursor in between, produces schedule calls at `t0`
and `t0 + 1`. -/
theorem c6_scheduling (st : ConvState) (clock : ℚ) (mime b64 : String) (bytes : List Nat)
    (hdec : decode b64 = some bytes) (heven : bytes.length % 2 = 0) :
    ((onmessage clock st (audioChunkMsg mime b64)).scheduled =
        st.scheduled ++ [(max st.nextStartTime clock, ((bytes.length / 2 : Nat) : ℚ) / 24000)] ∧
      (onmessage clock st (audioChunkMsg mime b64)).nextStartTime =
        max st.nextStartTime clock + ((bytes.length / 2 : Nat) : ℚ) / 24000) ∧
    (∀ (clock2 : ℚ) (mime2 b642 : String) (bytes2 : List Nat),
      decode b642 = some bytes2 → bytes.length = 48000 → bytes2.length = 24000 →
      clock2 ≤ (onmessage clock st (audioChunkMsg mime b64)).nextStartTime →
      (onmessage clock2 (onmessage clock st (audioChunkMsg mime b64))
          (audioChunkMsg mime2 b642)).scheduled =
        st.scheduled ++ [(max st.nextStartTime clock, 1),
                         (max st.nextStartTime clock + 1, 1 / 2)]) := by
  have h1 := onmessage_audioChunk_valid clock st mime b64 bytes hdec heven
  refine ⟨⟨by rw [h1], by rw [h1]⟩, ?_⟩
  intro clock2 mime2 b642 bytes2 hdec2 hlen1 hlen2 hclock2
  have heven2 : bytes2.length % 2 = 0 := by omega
  have h2 := onmessage_audioChunk_valid clock2 (onmessage clock st (audioChunkMsg mime b64))
    mime2 b642 bytes2 hdec2 heven2
  have hd1 : ((bytes.length / 2 : Nat) : ℚ) / 24000 = 1 := by rw [hlen1]; norm_num
  have hd2 : ((bytes2.length / 2 : Nat) : ℚ) / 24000 = 1 / 2 := by rw [hlen2]; norm_num
  rw [h1] at hclock2
  dsimp only at hclock2
  rw [hd1] at hclock2
  rw [h2, h1]
  dsimp only
  rw [hd1, hd2, max_eq_left hclock2]
  simp [List.append_assoc]

/-- C6 witness. -/
theorem c6_witness :
    (onmessage 0 initState (audioChunkMsg "audio/pcm" (encode [0, 0]))).nextStartTime =
      max initState.nextStartTime 0 + ((([0, 0] : List Nat).length / 2 : Nat) : ℚ) / 24000 :=
  ((c6_scheduling initState 0 "audio/pcm" (encode [0, 0]) [0, 0]
      (decode_encode_bytes [0, 0] (by decide)) (by decide)).1).2

/-- C7: a run of transcript deltas followed by `TurnComplete`, starting
from empty accumulators, appends one record pairing the concatenated
user text with the concatenated model text (in arrival order) and resets
both accumulators; no deltas at all yield the empty record. -/
theorem c7_turn_aggregation (deltas : List (Bool × String)) (st : ConvState)
    (h1 : st.currentInputTranscription = "") (h2 : st.currentOutputTranscription = "") :
    (runMessages st (deltaMsgs deltas ++ [(0, turnCompleteMsg)])).transcriptions =
      st.transcriptions ++ [(userText deltas, modelText deltas)] ∧
    (runMessages st (deltaMsgs deltas ++ [(0, turnCompleteMsg)])).currentInputTranscription
      = "" ∧
    (runMessages st (deltaMsgs deltas ++ [(0, turnCompleteMsg)])).currentOutputTranscription
      = "" := by
  rw [runMessages_append, run_deltas]
  simp [runMessages, onmessage_turnComplete, h1, h2]

/-- C7 witness: the `"Hel"`, `"lo"` example. -/
theorem c7_witness :
    (runMessages initState
        (deltaMsgs [(true, "Hel"), (true, "lo")] ++ [(0, turnCompleteMsg)])).transcriptions
      = [("Hello", "")] := by
  have h := c7_turn_aggregation [(true, "Hel"), (true, "lo")] initState rfl rfl
  rw [h.1]
  rfl

/-- C8 counterexample: from a fully-populated session the release trace
starts with the transport close and closes the input context before the
output context, so it differs from the claimed order (graph disconnect →
track stop → output close → input close → transport clear → flag). -/
theorem c8_counterexample :
    (stopSession fullSession).2 =
      [RelEvent.closeSession, RelEvent.stopTrack, RelEvent.disconnectProcessor,
       RelEvent.disconnectSource, RelEvent.closeInputCtx, RelEvent.closeOutputCtx,
       RelEvent.setInactive] ∧
    (stopSession fullSession).2 ≠
      [RelEvent.disconnectProcessor, RelEvent.disconnectSource, RelEvent.stopTrack,
       RelEvent.closeOutputCtx, RelEvent.closeInputCtx, RelEvent.closeSession,
       RelEvent.setInactive] := by
  refine ⟨stopSession_fullSession_trace, ?_⟩
  rw [stopSession_fullSession_trace]
  decide

/-- C8 (amended): teardown releases in source order — close the transport
session first, then stop the input tracks, then disconnect the processor
and source nodes, then close the input context, then the output context —
and sets the active flag false last from every state. -/
theorem c8_release_order (s : SessResources) (h : s = fullSession) :
    (stopSession s).2 =
      [RelEvent.closeSession, RelEvent.stopTrack, RelEvent.disconnectProcessor,
       RelEvent.disconnectSource, RelEvent.closeInputCtx, RelEvent.closeOutputCtx,
       RelEvent.setInactive] ∧
    (∀ s2 : SessResources, (stopSession s2).2.getLast? = some RelEvent.setInactive) := by
  subst h
  exact ⟨stopSession_fullSession_trace, stopSession_getLast⟩

/-- C8 witness. -/
theorem c8_witness :
    (stopSession clearedState).2.getLast? = some RelEvent.setInactive :=
  (c8_release_order fullSession rfl).2 clearedState

/-- C9 counterexample: a captured block arriving with the session promise
resolved but the session in the Closed phase is still handed to the
transport — one send occurs, the frame is not dropped. -/
theorem c9_counterexample :
    onAudioProcess true SessionPhase.closed [0] = [mkPcmBlob [0]] ∧
    onAudioProcess true SessionPhase.closed [0] ≠ [] := by
  refine ⟨rfl, ?_⟩
  simp [onAudioProcess]

/-- C9 (amended): the handler contains no open-state guard: whenever the
session promise has resolved it sends exactly one frame per block —
identically in every session phase — and when the promise has not
resolved no send occurs; no NotOpenError is caught or handled. -/
theorem c9_no_phase_guard (resolved : Bool) (phase phase2 : SessionPhase)
    (samples : List ℚ) :
    onAudioProcess resolved phase samples = onAudioProcess resolved phase2 samples ∧
    (resolved = true → (onAudioProcess resolved phase samples).length = 1) ∧
    (resolved = false → onAudioProcess resolved phase samples = []) := by
  refine ⟨rfl, ?_, ?_⟩ <;> rintro rfl <;> simp [onAudioProcess]

/-- C9 witness. -/
theorem c9_witness :
    (onAudioProcess true SessionPhase.closed [(0 : ℚ)]).length = 1 :=
  (c9_no_phase_guard true SessionPhase.closed SessionPhase.opened [0]).2.1 rfl

/-- C10: the base64 wire helpers round-trip: decoding an encoded byte
sequence returns exactly the original bytes, in particular with the same
length. -/
theorem c10_roundtrip (b : List Nat) (h : ∀ x ∈ b, x < 256) :
    decode (encode b) = some b ∧
    (∀ y, decode (encode b) = some y → y.length = b.length) := by
  refine ⟨decode_encode_bytes b h, ?_⟩
  intro y hy
  rw [decode_encode_bytes b h] at hy
  cases hy
  rfl

/-- C10 witness. -/
theorem c10_witness : decode (encode [0, 127, 255]) = some [0, 127, 255] :=
  (c10_roundtrip [0, 127, 255] (by decide)).1

end App
